import Mathlib

/-!
Verification of the `fast_msgq` message-queue core against its specification.

This file shallowly embeds `src/fast_msgq/common/MessageQueue.h` — the
single-producer / single-reader shared-memory byte ring `MessageQueue<T>` —
and proves (or refutes) the specified properties of its operations.

Modelling conventions:
* `uint64_t` and `size_t` values are natural numbers together with explicit
  reduction `% 2^64` exactly where the machine arithmetic wraps.
* The data ring is a `List Nat` of bytes; `memcpy` into or out of the ring
  becomes a list splice / slice.
* Operations whose C++ evaluation is undefined (division or modulo by zero,
  `memcpy` to a null pointer of non-zero length) return `none`.
* The shared counters `*mReadPtr` / `*mWritePtr` are folded into the endpoint
  state, which models the whole sequential (single-endpoint) behaviour; the
  memory-order tags the source passes to the atomics are recorded separately
  where a claim speaks about them.
-/

namespace MessageQueue

/-- Modulus of `uint64_t` (and of `size_t` on the target platform). -/
def U64 : Nat := 2 ^ 64

/-- Unsigned 64-bit subtraction `a - b` (for operands already reduced mod `2^64`). -/
def sub64 (a b : Nat) : Nat := (a + U64 - b) % U64

/-- One grantor of the descriptor: `{ fdIndex, offset, extent }` (spec §6). -/
structure Grantor where
  fdIndex : Nat
  offset : Nat
  extent : Nat
deriving DecidableEq

/-- Modelled from the spec: the `MQDescriptor` consumed by the constructor
(its definition lives in `hidl/MQDescriptor.h`, outside this repository).
Spec §6: `getSize() → C`, `getQuantum() → Q`, `countGrantors()`/`getGrantors()`
give the grantor table, `getNativeHandle()` holds an ordered fd array and
`isHandleValid()` reports handle validity. `countGrantors()` is
`grantors.length`; `handleFds` is the native handle's fd array. -/
structure MQDescriptor where
  size : Nat
  quantum : Nat
  grantors : List Grantor
  handleValid : Bool
  handleFds : List Int
deriving DecidableEq

/-- Modelled from the spec: `MQDescriptor::kMinGrantorCount`. Spec §6 requires
at least three grantors at fixed positions. -/
def kMinGrantorCount : Nat := 3

/-- Modelled from the spec: grantor position of the read counter. -/
def READPTRPOS : Nat := 0

/-- Modelled from the spec: grantor position of the write counter. -/
def WRITEPTRPOS : Nat := 1

/-- Modelled from the spec: grantor position of the data ring. -/
def DATAPTRPOS : Nat := 2

/-- State of one `MessageQueue<T>` endpoint whose three regions are mapped.
`size` is `mDesc.getSize()` (the capacity C), `recW` is `sizeof(T)`,
`readPtr` / `writePtr` are the current values of the shared counters
`*mReadPtr` / `*mWritePtr`, and `ring` holds the bytes `mRing[0..size)`. -/
structure MQ where
  size : Nat
  recW : Nat
  readPtr : Nat
  writePtr : Nat
  ring : List Nat
deriving DecidableEq

/-- Transcription of `MessageQueue::availableToRead` (source lines 185–195):
`mWritePtr->load(relaxed) - mReadPtr->load(relaxed)`, an unsigned 64-bit
subtraction of the two counters. -/
def availableToRead (q : MQ) : Nat := sub64 q.writePtr q.readPtr

/-- Transcription of `MessageQueue::availableToWrite` (source lines 139–142):
`mDesc.getSize() - availableToRead()` in `size_t` arithmetic. -/
def availableToWrite (q : MQ) : Nat := sub64 q.size (availableToRead q)

/-- Transcription of `MessageQueue::region`: a pointer into the ring plus a
length. Addresses are measured as byte offsets from `mRing`; `none` models the
null pointer (the source builds `{0, 0}` for an unused second region). -/
structure region where
  address : Option Nat
  length : Nat
deriving DecidableEq

/-- Transcription of `MessageQueue::transaction`: the two-run split. -/
structure transaction where
  first : region
  second : region
deriving DecidableEq

/-- Transcription of `MessageQueue::beginWrite` (source lines 159–176).
`writeOffset = writePtr % mDesc.getSize()` is C++-undefined when the capacity
is zero, hence `none` in that case; otherwise the two-run split is computed
from `contiguous = size - writeOffset`. -/
def beginWrite (q : MQ) (nBytesDesired : Nat) : Option transaction :=
  if q.size = 0 then none
  else
    let writeOffset := q.writePtr % q.size
    let contiguous := q.size - writeOffset
    if contiguous < nBytesDesired then
      some ⟨⟨some writeOffset, contiguous⟩, ⟨some 0, nBytesDesired - contiguous⟩⟩
    else
      some ⟨⟨some writeOffset, nBytesDesired⟩, ⟨none, 0⟩⟩

/-- Transcription of `MessageQueue::beginRead` (source lines 212–232),
symmetric to `beginWrite` with the read counter. -/
def beginRead (q : MQ) (nBytesDesired : Nat) : Option transaction :=
  if q.size = 0 then none
  else
    let readOffset := q.readPtr % q.size
    let contiguous := q.size - readOffset
    if contiguous < nBytesDesired then
      some ⟨⟨some readOffset, contiguous⟩, ⟨some 0, nBytesDesired - contiguous⟩⟩
    else
      some ⟨⟨some readOffset, nBytesDesired⟩, ⟨none, 0⟩⟩

/-- Transcription of `MessageQueue::commitWrite` (source lines 178–183): load
the write counter, add `nBytesWritten` (wrapping at 2^64), store it back. -/
def commitWrite (q : MQ) (nBytesWritten : Nat) : MQ :=
  { q with writePtr := (q.writePtr + nBytesWritten) % U64 }

/-- Transcription of `MessageQueue::commitRead` (source lines 234–239). -/
def commitRead (q : MQ) (nBytesRead : Nat) : MQ :=
  { q with readPtr := (q.readPtr + nBytesRead) % U64 }

/-- Model of `memcpy(mRing + r.address, src, r.length)`: splice the first
`r.length` bytes of `src` into the ring at offset `r.address`. A null
destination (`r.address = none`) occurs in the source only with length zero,
where `memcpy` is a no-op; a null destination with non-zero length would be
undefined, hence `none`. -/
def memcpyToRing (ring : List Nat) (r : region) (src : List Nat) : Option (List Nat) :=
  match r.address with
  | some o => some (ring.take o ++ src.take r.length ++ ring.drop (o + r.length))
  | none => if r.length = 0 then some ring else none

/-- Model of `memcpy(dst, mRing + r.address, r.length)`: slice `r.length`
bytes out of the ring at offset `r.address`. -/
def memcpyFromRing (ring : List Nat) (r : region) : Option (List Nat) :=
  match r.address with
  | some o => some ((ring.drop o).take r.length)
  | none => if r.length = 0 then some [] else none

/-- Transcription of `MessageQueue::writeBytes` (source lines 144–152): begin
a write transaction, copy over the first run, copy the remainder of `data`
over the second run, and commit `first.length + second.length` bytes.
Returns the committed byte count and the new state. -/
def writeBytes (q : MQ) (data : List Nat) (size : Nat) : Option (Nat × MQ) :=
  (beginWrite q size).bind fun tx =>
  (memcpyToRing q.ring tx.first data).bind fun ring1 =>
  (memcpyToRing ring1 tx.second (data.drop tx.first.length)).bind fun ring2 =>
  let result := tx.first.length + tx.second.length
  some (result, commitWrite { q with ring := ring2 } result)

/-- Transcription of `MessageQueue::readBytes` (source lines 197–205): begin a
read transaction, copy the first run then the second run into the caller's
buffer, and commit. Returns the committed count, the bytes delivered, and the
new state. -/
def readBytes (q : MQ) (size : Nat) : Option (Nat × List Nat × MQ) :=
  (beginRead q size).bind fun tx =>
  (memcpyFromRing q.ring tx.first).bind fun d1 =>
  (memcpyFromRing q.ring tx.second).bind fun d2 =>
  let result := tx.first.length + tx.second.length
  some (result, d1 ++ d2, commitRead q result)

/-- Transcription of `MessageQueue::write(const T*, size_t)` (source lines
120–128): refuse when `availableToWrite() < sizeof(T) * count`, otherwise
write `sizeof(T) * count` bytes and report whether the full amount went in.
`sizeof(T) * count` is `size_t` multiplication, i.e. reduced mod 2^64. -/
def write (q : MQ) (data : List Nat) (count : Nat) : Option (Bool × MQ) :=
  if availableToWrite q < q.recW * count % U64 then some (false, q)
  else (writeBytes q data (q.recW * count % U64)).map fun r =>
    (r.1 == q.recW * count % U64, r.2)

/-- Transcription of `MessageQueue::read(T*, size_t)` (source lines 130–137):
refuse when `availableToRead() < sizeof(T) * count`, otherwise read that many
bytes. On refusal the caller's buffer is untouched, modelled as `[]`. -/
def read (q : MQ) (count : Nat) : Option (Bool × List Nat × MQ) :=
  if availableToRead q < q.recW * count % U64 then some (false, [], q)
  else (readBytes q (q.recW * count % U64)).map fun r =>
    (r.1 == q.recW * count % U64, r.2.1, r.2.2)

/-- Transcription of `MessageQueue::getQuantumSize` (source lines 241–244). -/
def getQuantumSize (d : MQDescriptor) : Nat := d.quantum

/-- Transcription of `MessageQueue::getQuantumCount` (source lines 246–249):
`mDesc.getSize() / mDesc.getQuantum()`, with no guard on the divisor; division
by zero is C++-undefined, hence `none` when the descriptor reports quantum 0. -/
def getQuantumCount (d : MQDescriptor) : Option Nat :=
  if d.quantum = 0 then none else some (d.size / d.quantum)

/-- Values of the three pointer members `mReadPtr` / `mWritePtr` / `mRing` as
observed through them: `none` models a null pointer, `some v` a mapped counter
currently holding `v`, `some bs` a mapped ring holding bytes `bs`. The struct
declares the members with no initialisers, so on the constructor's early
return they keep whatever indeterminate values their storage held. -/
structure Members where
  mReadPtr : Option Nat
  mWritePtr : Option Nat
  mRing : Option (List Nat)
deriving DecidableEq

/-- Memory-order tags of the C++ atomics, recorded for claims that speak
about the orders the source passes. -/
inductive MemOrder where
  | relaxed
  | acquire
  | release
deriving DecidableEq

/-- Memory order the constructor passes to the two counter-zeroing stores
(source lines 97–98: `mReadPtr->store(0, std::memory_order_acquire)` and
`mWritePtr->store(0, std::memory_order_acquire)`). -/
def ctorZeroStoreOrder : MemOrder := MemOrder.acquire

/-- Transcription of the constructor's malformed-descriptor test (source lines
81–85): handle invalid, or fewer than `kMinGrantorCount` grantors, or the
descriptor's quantum differs from `sizeof(T)` (`recW`). -/
def descMalformed (d : MQDescriptor) (recW : Nat) : Bool :=
  !d.handleValid || decide (d.grantors.length < kMinGrantorCount)
    || decide (d.quantum ≠ recW)

/-- Transcription of `MessageQueue::MessageQueue(const MQDescriptor&)` (source
lines 75–103). On a malformed descriptor it returns early, leaving the three
members with the indeterminate values `garbage` (they are never initialised on
that path). Otherwise it maps the read counter, the write counter and the ring
in that order — `mapReadOk` / `mapWriteOk` / `ringMem` are the
environment-determined outcomes of the three `mapGrantorDescr` calls, and a
failed mapping trips the fatal `CHECK`, modelled as `none` — and zeroes both
counters (with the store order `ctorZeroStoreOrder`) before mapping the ring. -/
def construct (d : MQDescriptor) (recW : Nat) (garbage : Members)
    (mapReadOk mapWriteOk : Bool) (ringMem : Option (List Nat)) : Option Members :=
  if descMalformed d recW then some garbage
  else if !mapReadOk then none
  else if !mapWriteOk then none
  else match ringMem with
    | none => none
    | some bs => some { mReadPtr := some 0, mWritePtr := some 0, mRing := some bs }

/-- Transcription of `MessageQueue::isValid` (source lines 251–254): all three
member pointers are non-null. -/
def isValid (m : Members) : Bool :=
  m.mRing.isSome && m.mReadPtr.isSome && m.mWritePtr.isSome

/-- Narrowing of a computed unsigned value to the source's 32-bit `int`
locals (`int mapOffset`, `int mapLength`, source lines 264–266 and 280–282):
two's-complement truncation to 32 bits, value-preserving exactly below
`2^31`. The narrowing commutes with any prior reduction of the unsigned
source expression modulo `2^w` for `w ≥ 32`, so it does not depend on the
(unspecified) width of the descriptor's unsigned grantor fields. -/
def intCast32 (n : Nat) : Int :=
  if n % 2 ^ 32 < 2 ^ 31 then ((n % 2 ^ 32 : Nat) : Int)
  else ((n % 2 ^ 32 : Nat) : Int) - 2 ^ 32

/-- Transcription of `MessageQueue::mapGrantorDescr` (source lines 256–274).
`mm len fd off` is the environment's `mmap(0, len, PROT_READ|PROT_WRITE,
MAP_SHARED, fd, off)` call taking the `int`-typed mapping length and file
offset the source computes, returning the base address or `none` for
`MAP_FAILED`; addresses are integers with 0 the null pointer. The `int`
locals `mapOffset` (the grantor offset aligned down to a `pageSize` multiple)
and `mapLength` (the extent padded by the alignment slack) are the
`intCast32` narrowings of the computed values. On success the call returns
`base` plus the alignment slack `offset - mapOffset`; the slack is modelled
as exact integer subtraction, which agrees with the source's unsigned
arithmetic whenever `mapOffset` narrows exactly (then `mapOffset ≤ offset`),
the regime the theorems below treat. -/
def mapGrantorDescr (pageSize : Nat) (mm : Int → Int → Int → Option Int)
    (d : MQDescriptor) (grantor_idx : Nat) : Option Int :=
  let g := d.grantors.getD grantor_idx ⟨0, 0, 0⟩
  let fd := d.handleFds.getD g.fdIndex 0
  let mapOffset : Int := intCast32 (g.offset / pageSize * pageSize)
  let mapLength : Int := intCast32 (g.offset - g.offset / pageSize * pageSize + g.extent)
  match mm mapLength fd mapOffset with
  | none => none
  | some base => some (base + ((g.offset : Int) - mapOffset))

/-- Transcription of `MessageQueue::unmapGrantorDescr` (source lines 276–286):
recompute the same `int`-typed `mapOffset`/`mapLength`, recover the
page-aligned base by subtracting the alignment slack from `address`, and if
the base is non-null release `(baseAddress, mapLength)` via `munmap`. The
result records the `munmap` call made, `none` when the null check suppressed
it. -/
def unmapGrantorDescr (pageSize : Nat) (d : MQDescriptor) (address : Int)
    (grantor_idx : Nat) : Option (Int × Int) :=
  let g := d.grantors.getD grantor_idx ⟨0, 0, 0⟩
  let mapOffset : Int := intCast32 (g.offset / pageSize * pageSize)
  let mapLength : Int := intCast32 (g.offset - g.offset / pageSize * pageSize + g.extent)
  let baseAddress : Int := address - ((g.offset : Int) - mapOffset)
  if baseAddress = 0 then none else some (baseAddress, mapLength)

/-! ### Arithmetic helper lemmas -/

theorem U64_eq : U64 = 18446744073709551616 := by norm_num [U64]

theorem sub64_lt (a b : Nat) : sub64 a b < U64 := by
  have : (0 : Nat) < U64 := by rw [U64_eq]; omega
  exact Nat.mod_lt _ this

theorem sub64_self (a : Nat) : sub64 a a = 0 := by
  show (a + U64 - a) % U64 = 0
  rw [U64_eq]; omega

theorem sub64_of_le (a b : Nat) (hb : b ≤ a) (ha : a - b < U64) : sub64 a b = a - b := by
  show (a + U64 - b) % U64 = a - b
  rw [U64_eq] at *; omega

theorem sub64_wrap (a b : Nat) (hab : a < b) (hb : b < U64) : sub64 a b = a + U64 - b := by
  show (a + U64 - b) % U64 = a + U64 - b
  rw [U64_eq] at *; omega

theorem sub64_add_mod (a n : Nat) (ha : a < U64) (hn : n < U64) :
    sub64 ((a + n) % U64) a = n := by
  show ((a + n) % U64 + U64 - a) % U64 = n
  rw [U64_eq] at *; omega

theorem sub64_add_left (w r n : Nat) (hw : w < U64) (hr : r < U64)
    (h : sub64 w r + n < U64) :
    sub64 ((w + n) % U64) r = sub64 w r + n := by
  show ((w + n) % U64 + U64 - r) % U64 = (w + U64 - r) % U64 + n
  have h2 : (w + U64 - r) % U64 + n < U64 := h
  rw [U64_eq] at *; omega

theorem sub64_sub_right (w r n : Nat) (hw : w < U64) (hr : r < U64)
    (hocc : n ≤ sub64 w r) :
    sub64 w ((r + n) % U64) = sub64 w r - n := by
  show (w + U64 - (r + n) % U64) % U64 = (w + U64 - r) % U64 - n
  have h2 : n ≤ (w + U64 - r) % U64 := hocc
  rw [U64_eq] at *; omega

/-- Values below `2^31` survive the `int` narrowing unchanged. -/
theorem intCast32_of_lt (n : Nat) (h : n < 2 ^ 31) : intCast32 n = (n : Int) := by
  have hm : n % 2 ^ 32 = n := Nat.mod_eq_of_lt (by omega)
  rw [intCast32, hm, if_pos h]

/-- Occupancy bound `availableToRead ≤ size` turns `availableToWrite` into an
actual subtraction. -/
theorem availableToWrite_eq (q : MQ) (hC : q.size < U64)
    (hocc : availableToRead q ≤ q.size) :
    availableToWrite q = q.size - availableToRead q :=
  sub64_of_le _ _ hocc (by rw [U64_eq] at *; omega)

/-! ### List helper lemmas for the `memcpy` models -/

theorem getD_drop (l : List Nat) (c k : Nat) :
    (l.drop c).getD k 0 = l.getD (c + k) 0 := by
  simp only [List.getD_eq_getElem?_getD, List.getElem?_drop]

theorem length_memcpy (ring src : List Nat) (o len : Nat)
    (h1 : o + len ≤ ring.length) (h2 : len ≤ src.length) :
    (ring.take o ++ src.take len ++ ring.drop (o + len)).length = ring.length := by
  simp [List.length_append, List.length_take, List.length_drop]
  omega

/-- Pointwise description of splicing `src.take len` into `ring` at `o`. -/
theorem getD_memcpy (ring src : List Nat) (o len j : Nat)
    (h1 : o + len ≤ ring.length) (h2 : len ≤ src.length) :
    (ring.take o ++ src.take len ++ ring.drop (o + len)).getD j 0 =
      if o ≤ j ∧ j < o + len then src.getD (j - o) 0 else ring.getD j 0 := by
  have hto : (ring.take o).length = o := by simp [List.length_take]; omega
  have htl : (src.take len).length = len := by simp [List.length_take]; omega
  rw [List.append_assoc]
  simp only [List.getD_eq_getElem?_getD]
  by_cases hj1 : j < o
  · rw [List.getElem?_append_left (by rw [hto]; omega), List.getElem?_take,
      if_pos hj1, if_neg (by omega)]
  · rw [List.getElem?_append_right (by rw [hto]; omega), hto]
    by_cases hj2 : j < o + len
    · rw [List.getElem?_append_left (by rw [htl]; omega), List.getElem?_take,
        if_pos (by omega), if_pos (by omega)]
    · rw [List.getElem?_append_right (by rw [htl]; omega), htl,
        List.getElem?_drop, if_neg (by omega)]
      have : o + len + (j - o - len) = j := by omega
      rw [this]

theorem length_slice (ring : List Nat) (o len : Nat) (h1 : o + len ≤ ring.length) :
    ((ring.drop o).take len).length = len := by
  simp [List.length_take, List.length_drop]
  omega

theorem getD_slice (ring : List Nat) (o len j : Nat) (hj : j < len) :
    ((ring.drop o).take len).getD j 0 = ring.getD (o + j) 0 := by
  simp only [List.getD_eq_getElem?_getD, List.getElem?_take, if_pos hj,
    List.getElem?_drop]

theorem list_eq_of_getD (a b : List Nat) (hlen : a.length = b.length)
    (h : ∀ i, i < a.length → a.getD i 0 = b.getD i 0) : a = b := by
  apply List.ext_getElem hlen
  intro n h1 h2
  have h3 := h n h1
  rwa [List.getD_eq_getElem _ _ h1, List.getD_eq_getElem _ _ h2] at h3

/-! ### Transaction and transfer lemmas -/

/-- Closed form of `beginWrite` on a queue of positive capacity. -/
theorem beginWrite_eq (q : MQ) (n : Nat) (h : 0 < q.size) :
    beginWrite q n =
      if q.size - q.writePtr % q.size < n then
        some ⟨⟨some (q.writePtr % q.size), q.size - q.writePtr % q.size⟩,
              ⟨some 0, n - (q.size - q.writePtr % q.size)⟩⟩
      else some ⟨⟨some (q.writePtr % q.size), n⟩, ⟨none, 0⟩⟩ := by
  simp only [beginWrite, if_neg (by omega : ¬ q.size = 0)]

/-- Closed form of `beginRead` on a queue of positive capacity. -/
theorem beginRead_eq (q : MQ) (n : Nat) (h : 0 < q.size) :
    beginRead q n =
      if q.size - q.readPtr % q.size < n then
        some ⟨⟨some (q.readPtr % q.size), q.size - q.readPtr % q.size⟩,
              ⟨some 0, n - (q.size - q.readPtr % q.size)⟩⟩
      else some ⟨⟨some (q.readPtr % q.size), n⟩, ⟨none, 0⟩⟩ := by
  simp only [beginRead, if_neg (by omega : ¬ q.size = 0)]

/-- Description of `writeBytes q data n` for an in-range `n`: it commits
exactly `n` bytes, advances the write counter by `n` (mod `2^64`), and lands
byte `i` of `data` at ring index `(writePtr + i) % size`. -/
theorem writeBytes_spec (q : MQ) (data : List Nat) (n : Nat)
    (hC : 0 < q.size) (hring : q.ring.length = q.size)
    (hn : n ≤ q.size) (hd : n ≤ data.length) :
    ∃ ring2,
      writeBytes q data n =
        some (n, { q with ring := ring2, writePtr := (q.writePtr + n) % U64 }) ∧
      ring2.length = q.size ∧
      ∀ i, i < n → ring2.getD ((q.writePtr + i) % q.size) 0 = data.getD i 0 := by
  have hoC : q.writePtr % q.size < q.size := Nat.mod_lt _ hC
  rw [writeBytes, beginWrite_eq q n hC]
  set C := q.size with hCdef
  set o := q.writePtr % C with ho
  by_cases hcase : C - o < n
  · rw [if_pos hcase]
    simp only [Option.some_bind, memcpyToRing, Option.some_bind]
    set R1 : List Nat := q.ring.take o ++ data.take (C - o) ++ q.ring.drop (o + (C - o))
      with hR1
    have hR1len : R1.length = C := by
      rw [hR1]
      rw [length_memcpy _ _ _ _ (by omega) (by omega), hring]
    set R2 : List Nat :=
      R1.take 0 ++ (data.drop (C - o)).take (n - (C - o)) ++ R1.drop (0 + (n - (C - o)))
      with hR2
    have hdl : (data.drop (C - o)).length = data.length - (C - o) := by
      simp [List.length_drop]
    have hR2len : R2.length = C := by
      rw [hR2, length_memcpy _ _ _ _ (by omega) (by omega)]
      exact hR1len
    have hres : C - o + (n - (C - o)) = n := by omega
    refine ⟨R2, ?_, hR2len, ?_⟩
    · rw [hres]; rfl
    · intro i hi
      have hWi : (q.writePtr + i) % C = (o + i) % C := by
        rw [ho, Nat.mod_add_mod]
      by_cases hicase : i < C - o
      · have hpos : (q.writePtr + i) % C = o + i := by
          rw [hWi]; exact Nat.mod_eq_of_lt (by omega)
        rw [hpos, hR2, getD_memcpy _ _ _ _ _ (by omega) (by omega),
          if_neg (by omega), hR1, getD_memcpy _ _ _ _ _ (by omega) (by omega),
          if_pos (by omega)]
        congr 1
        omega
      · have hpos : (q.writePtr + i) % C = o + i - C := by
          rw [hWi, Nat.mod_eq_sub_mod (by omega)]
          exact Nat.mod_eq_of_lt (by omega)
        rw [hpos, hR2, getD_memcpy _ _ _ _ _ (by omega) (by omega),
          if_pos (by omega), getD_drop]
        congr 1
        omega
  · rw [if_neg hcase]
    simp only [Option.some_bind, memcpyToRing, Option.some_bind, if_pos rfl]
    set R1 : List Nat := q.ring.take o ++ data.take n ++ q.ring.drop (o + n) with hR1
    have hR1len : R1.length = C := by
      rw [hR1, length_memcpy _ _ _ _ (by omega) (by omega), hring]
    refine ⟨R1, ?_, hR1len, ?_⟩
    · rfl
    · intro i hi
      have hpos : (q.writePtr + i) % C = o + i := by
        have h1 : (q.writePtr + i) % C = (o + i) % C := by rw [ho, Nat.mod_add_mod]
        rw [h1]
        exact Nat.mod_eq_of_lt (by omega)
      rw [hpos, hR1, getD_memcpy _ _ _ _ _ (by omega) (by omega), if_pos (by omega)]
      congr 1
      omega

/-- Description of `readBytes q n` for an in-range `n`: it commits exactly
`n` bytes, advances the read counter by `n` (mod `2^64`), and delivers as byte
`i` the ring byte at index `(readPtr + i) % size`. The ring is untouched. -/
theorem readBytes_spec (q : MQ) (n : Nat)
    (hC : 0 < q.size) (hring : q.ring.length = q.size) (hn : n ≤ q.size) :
    ∃ d,
      readBytes q n = some (n, d, { q with readPtr := (q.readPtr + n) % U64 }) ∧
      d.length = n ∧
      ∀ i, i < n → d.getD i 0 = q.ring.getD ((q.readPtr + i) % q.size) 0 := by
  have hoC : q.readPtr % q.size < q.size := Nat.mod_lt _ hC
  rw [readBytes, beginRead_eq q n hC]
  set C := q.size with hCdef
  set o := q.readPtr % C with ho
  by_cases hcase : C - o < n
  · rw [if_pos hcase]
    simp only [Option.some_bind, memcpyFromRing, Option.some_bind]
    set d1 : List Nat := (q.ring.drop o).take (C - o) with hd1
    set d2 : List Nat := (q.ring.drop 0).take (n - (C - o)) with hd2
    have hd1len : d1.length = C - o := by
      rw [hd1, length_slice _ _ _ (by omega)]
    have hd2len : d2.length = n - (C - o) := by
      rw [hd2, length_slice _ _ _ (by omega)]
    have hres : C - o + (n - (C - o)) = n := by omega
    refine ⟨d1 ++ d2, ?_, by simp [List.length_append, hd1len, hd2len]; omega, ?_⟩
    · rw [hres]; rfl
    · intro i hi
      have hWi : (q.readPtr + i) % C = (o + i) % C := by
        rw [ho, Nat.mod_add_mod]
      by_cases hicase : i < C - o
      · have hpos : (q.readPtr + i) % C = o + i := by
          rw [hWi]; exact Nat.mod_eq_of_lt (by omega)
        rw [hpos, List.getD_append _ _ _ _ (by omega), hd1,
          getD_slice _ _ _ _ (by omega)]
      · have hpos : (q.readPtr + i) % C = o + i - C := by
          rw [hWi, Nat.mod_eq_sub_mod (by omega)]
          exact Nat.mod_eq_of_lt (by omega)
        rw [hpos, List.getD_append_right _ _ _ _ (by omega), hd1len, hd2,
          getD_slice _ _ _ _ (by omega)]
        congr 1
        omega
  · rw [if_neg hcase]
    simp only [Option.some_bind, memcpyFromRing, Option.some_bind, if_pos rfl]
    set d1 : List Nat := (q.ring.drop o).take n with hd1
    have hd1len : d1.length = n := by
      rw [hd1, length_slice _ _ _ (by omega)]
    refine ⟨d1 ++ [], ?_, by simp [hd1len], ?_⟩
    · rfl
    · intro i hi
      have hpos : (q.readPtr + i) % C = o + i := by
        have h1 : (q.readPtr + i) % C = (o + i) % C := by rw [ho, Nat.mod_add_mod]
        rw [h1]
        exact Nat.mod_eq_of_lt (by omega)
      rw [hpos, List.getD_append _ _ _ _ (by omega), hd1,
        getD_slice _ _ _ _ (by omega)]

/-- Refusal branch of `write`: a failed capacity check returns `false` and
leaves the state untouched. -/
theorem write_refuse (q : MQ) (data : List Nat) (count : Nat)
    (h : availableToWrite q < q.recW * count % U64) :
    write q data count = some (false, q) := by
  rw [write, if_pos h]

/-- Refusal branch of `read`. -/
theorem read_refuse (q : MQ) (count : Nat)
    (h : availableToRead q < q.recW * count % U64) :
    read q count = some (false, [], q) := by
  rw [read, if_pos h]

/-- Success branch of `write`: with `sizeof(T)·count` bytes available it
returns `true`, advances the write counter by exactly that many bytes, leaves
the read counter alone, and deposits the data at `writePtr % size` onwards. -/
theorem write_succ (q : MQ) (data : List Nat) (count : Nat)
    (hC : 0 < q.size) (hCU : q.size < U64)
    (hring : q.ring.length = q.size) (hocc : availableToRead q ≤ q.size)
    (hd : q.recW * count ≤ data.length)
    (hge : q.recW * count ≤ availableToWrite q) :
    ∃ ring2,
      write q data count =
        some (true,
          { q with
              ring := ring2
              writePtr := (q.writePtr + q.recW * count) % U64 }) ∧
      ring2.length = q.size ∧
      ∀ i, i < q.recW * count →
        ring2.getD ((q.writePtr % q.size + i) % q.size) 0 = data.getD i 0 := by
  have hatw : availableToWrite q = q.size - availableToRead q :=
    availableToWrite_eq q hCU hocc
  have hnC : q.recW * count ≤ q.size := by omega
  have hnU : q.recW * count < U64 := by rw [U64_eq] at *; omega
  have hmod : q.recW * count % U64 = q.recW * count := Nat.mod_eq_of_lt hnU
  obtain ⟨ring2, hwb, hlen, hpt⟩ := writeBytes_spec q data (q.recW * count) hC hring hnC hd
  refine ⟨ring2, ?_, hlen, ?_⟩
  · rw [write, if_neg (by omega), hmod, hwb, Option.map_some']
    simp [beq_self_eq_true]
  · intro i hi
    have h1 : (q.writePtr % q.size + i) % q.size = (q.writePtr + i) % q.size :=
      Nat.mod_add_mod _ _ _
    rw [h1]
    exact hpt i hi

/-- Success branch of `read`: with `sizeof(T)·count` bytes pending it returns
`true`, delivers the bytes at `readPtr % size` onwards, advances the read
counter by exactly that many bytes, and touches neither the write counter nor
the ring. -/
theorem read_succ (q : MQ) (count : Nat)
    (hC : 0 < q.size) (hCU : q.size < U64)
    (hring : q.ring.length = q.size) (hocc : availableToRead q ≤ q.size)
    (hge : q.recW * count ≤ availableToRead q) :
    ∃ d,
      read q count =
        some (true, d, { q with readPtr := (q.readPtr + q.recW * count) % U64 }) ∧
      d.length = q.recW * count ∧
      ∀ i, i < q.recW * count →
        d.getD i 0 = q.ring.getD ((q.readPtr % q.size + i) % q.size) 0 := by
  have hnC : q.recW * count ≤ q.size := by omega
  have hnU : q.recW * count < U64 := by rw [U64_eq] at *; omega
  have hmod : q.recW * count % U64 = q.recW * count := Nat.mod_eq_of_lt hnU
  obtain ⟨d, hrb, hlen, hpt⟩ := readBytes_spec q (q.recW * count) hC hring hnC
  refine ⟨d, ?_, hlen, ?_⟩
  · rw [read, if_neg (by omega), hmod, hrb, Option.map_some']
    simp [beq_self_eq_true]
  · intro i hi
    have h1 : (q.readPtr % q.size + i) % q.size = (q.readPtr + i) % q.size :=
      Nat.mod_add_mod _ _ _
    rw [h1]
    exact hpt i hi

/-- Zero-byte `writeBytes` commits zero bytes and returns the state unchanged. -/
theorem writeBytes_zero (q : MQ) (data : List Nat)
    (hC : 0 < q.size) (hw : q.writePtr < U64) :
    writeBytes q data 0 = some (0, q) := by
  rw [writeBytes, beginWrite_eq q 0 hC, if_neg (by omega)]
  simp only [Option.some_bind, memcpyToRing, List.take_zero, Nat.add_zero,
    List.append_nil, List.take_append_drop, reduceIte]
  simp [commitWrite, Nat.mod_eq_of_lt hw]

/-- Zero-byte `readBytes` commits zero bytes, delivers nothing and returns the
state unchanged. -/
theorem readBytes_zero (q : MQ)
    (hC : 0 < q.size) (hr : q.readPtr < U64) :
    readBytes q 0 = some (0, [], q) := by
  rw [readBytes, beginRead_eq q 0 hC, if_neg (by omega)]
  simp only [Option.some_bind, memcpyFromRing, List.take_zero, reduceIte]
  simp [commitRead, Nat.mod_eq_of_lt hr]

/-! ### Claim theorems -/

/-- **C2.** For every desired length `n` and current position `p`, the
transaction computed by `beginWrite`/`beginRead` has a first run of length
`min n (C - p % C)` starting at ring offset `p % C` and a second run of length
`n - min n (C - p % C)` starting at ring offset 0; the second run is empty
unless the request wraps (it is empty exactly when `n ≤ C - p % C`, so an
exact-fit request keeps a single contiguous run and one byte more splits), and
the commit step advances the owning counter by exactly `n` (in the 64-bit
counter arithmetic) and only that counter. -/
theorem c2_transaction_split (q : MQ) (n : Nat) (hC : 0 < q.size) :
    (∃ tx, beginWrite q n = some tx ∧
        tx.first.address = some (q.writePtr % q.size) ∧
        tx.first.length = min n (q.size - q.writePtr % q.size) ∧
        tx.second.length = n - min n (q.size - q.writePtr % q.size) ∧
        (0 < tx.second.length → tx.second.address = some 0) ∧
        (tx.second.length = 0 ↔ n ≤ q.size - q.writePtr % q.size)) ∧
    (∃ tx, beginRead q n = some tx ∧
        tx.first.address = some (q.readPtr % q.size) ∧
        tx.first.length = min n (q.size - q.readPtr % q.size) ∧
        tx.second.length = n - min n (q.size - q.readPtr % q.size) ∧
        (0 < tx.second.length → tx.second.address = some 0) ∧
        (tx.second.length = 0 ↔ n ≤ q.size - q.readPtr % q.size)) ∧
    (commitWrite q n).writePtr = (q.writePtr + n) % U64 ∧
    (commitWrite q n).readPtr = q.readPtr ∧
    (commitRead q n).readPtr = (q.readPtr + n) % U64 ∧
    (commitRead q n).writePtr = q.writePtr := by
  refine ⟨?_, ?_, rfl, rfl, rfl, rfl⟩
  · rw [beginWrite_eq q n hC]
    by_cases h : q.size - q.writePtr % q.size < n
    · rw [if_pos h]
      refine ⟨_, rfl, rfl, ?_, ?_, fun _ => rfl, ?_⟩
      · show q.size - q.writePtr % q.size = min n (q.size - q.writePtr % q.size)
        omega
      · show n - (q.size - q.writePtr % q.size) =
          n - min n (q.size - q.writePtr % q.size)
        omega
      · show n - (q.size - q.writePtr % q.size) = 0 ↔
          n ≤ q.size - q.writePtr % q.size
        omega
    · rw [if_neg h]
      refine ⟨_, rfl, rfl, ?_, ?_, fun h0 => absurd h0 (lt_irrefl 0), ?_⟩
      · show n = min n (q.size - q.writePtr % q.size)
        omega
      · show (0 : Nat) = n - min n (q.size - q.writePtr % q.size)
        omega
      · show (0 : Nat) = 0 ↔ n ≤ q.size - q.writePtr % q.size
        constructor
        · intro _; omega
        · intro _; rfl
  · rw [beginRead_eq q n hC]
    by_cases h : q.size - q.readPtr % q.size < n
    · rw [if_pos h]
      refine ⟨_, rfl, rfl, ?_, ?_, fun _ => rfl, ?_⟩
      · show q.size - q.readPtr % q.size = min n (q.size - q.readPtr % q.size)
        omega
      · show n - (q.size - q.readPtr % q.size) =
          n - min n (q.size - q.readPtr % q.size)
        omega
      · show n - (q.size - q.readPtr % q.size) = 0 ↔
          n ≤ q.size - q.readPtr % q.size
        omega
    · rw [if_neg h]
      refine ⟨_, rfl, rfl, ?_, ?_, fun h0 => absurd h0 (lt_irrefl 0), ?_⟩
      · show n = min n (q.size - q.readPtr % q.size)
        omega
      · show (0 : Nat) = n - min n (q.size - q.readPtr % q.size)
        omega
      · show (0 : Nat) = 0 ↔ n ≤ q.size - q.readPtr % q.size
        constructor
        · intro _; omega
        · intro _; rfl

/-- Witness for C2 at a concrete state: capacity 8, write position 5,
request 4 (which wraps). -/
theorem c2_transaction_split_witness :
    0 < (MQ.mk 8 1 5 5 [0, 0, 0, 0, 0, 0, 0, 0]).size ∧
    ((∃ tx, beginWrite (MQ.mk 8 1 5 5 [0, 0, 0, 0, 0, 0, 0, 0]) 4 = some tx ∧
        tx.first.address = some 5 ∧ tx.first.length = min 4 3 ∧
        tx.second.length = 4 - min 4 3 ∧
        (0 < tx.second.length → tx.second.address = some 0) ∧
        (tx.second.length = 0 ↔ 4 ≤ 3)) ∧
      (∃ tx, beginRead (MQ.mk 8 1 5 5 [0, 0, 0, 0, 0, 0, 0, 0]) 4 = some tx ∧
        tx.first.address = some 5 ∧ tx.first.length = min 4 3 ∧
        tx.second.length = 4 - min 4 3 ∧
        (0 < tx.second.length → tx.second.address = some 0) ∧
        (tx.second.length = 0 ↔ 4 ≤ 3)) ∧
      (commitWrite (MQ.mk 8 1 5 5 [0, 0, 0, 0, 0, 0, 0, 0]) 4).writePtr = (5 + 4) % U64 ∧
      (commitWrite (MQ.mk 8 1 5 5 [0, 0, 0, 0, 0, 0, 0, 0]) 4).readPtr = 5 ∧
      (commitRead (MQ.mk 8 1 5 5 [0, 0, 0, 0, 0, 0, 0, 0]) 4).readPtr = (5 + 4) % U64 ∧
      (commitRead (MQ.mk 8 1 5 5 [0, 0, 0, 0, 0, 0, 0, 0]) 4).writePtr = 5) :=
  ⟨by decide, c2_transaction_split (MQ.mk 8 1 5 5 [0, 0, 0, 0, 0, 0, 0, 0]) 4 (by decide)⟩

/-- **C6.** On every well-formed endpoint state, `write(data, 0)` and
`read(dst, 0)` return `true` and leave the write counter, the read counter and
all ring bytes unchanged (the resulting state is exactly the input state). -/
theorem c6_zero_count_noop (q : MQ) (data : List Nat)
    (hC : 0 < q.size) (hw : q.writePtr < U64) (hr : q.readPtr < U64) :
    write q data 0 = some (true, q) ∧ read q 0 = some (true, [], q) := by
  have hmod : q.recW * 0 % U64 = 0 := by simp
  constructor
  · rw [write, if_neg (by rw [hmod]; omega), hmod,
      writeBytes_zero q data hC hw, Option.map_some']
    simp
  · rw [read, if_neg (by rw [hmod]; omega), hmod,
      readBytes_zero q hC hr, Option.map_some']
    simp

/-- Witness for C6 at a concrete state. -/
theorem c6_zero_count_noop_witness :
    (0 < (MQ.mk 8 2 3 7 [1, 2, 3, 4, 5, 6, 7, 8]).size ∧
      (MQ.mk 8 2 3 7 [1, 2, 3, 4, 5, 6, 7, 8]).writePtr < U64 ∧
      (MQ.mk 8 2 3 7 [1, 2, 3, 4, 5, 6, 7, 8]).readPtr < U64) ∧
    write (MQ.mk 8 2 3 7 [1, 2, 3, 4, 5, 6, 7, 8]) [9, 9] 0 =
      some (true, MQ.mk 8 2 3 7 [1, 2, 3, 4, 5, 6, 7, 8]) ∧
    read (MQ.mk 8 2 3 7 [1, 2, 3, 4, 5, 6, 7, 8]) 0 =
      some (true, [], MQ.mk 8 2 3 7 [1, 2, 3, 4, 5, 6, 7, 8]) :=
  ⟨⟨by decide, by decide, by decide⟩,
    c6_zero_count_noop (MQ.mk 8 2 3 7 [1, 2, 3, 4, 5, 6, 7, 8]) [9, 9]
      (by decide) (by decide) (by decide)⟩

/-- **C7.** `availableToRead()` is the unsigned 64-bit difference of the two
counters — `W - R` when `R ≤ W`, and `W + 2^64 - R` when the counters have
wrapped — and `availableToWrite()` is `C - availableToRead()`; in particular
when `W - R = C` the free space is 0 and any non-zero write refuses. -/
theorem c7_available_capacities (q : MQ) (hw : q.writePtr < U64)
    (hr : q.readPtr < U64) (hC : q.size < U64) :
    (q.readPtr ≤ q.writePtr → availableToRead q = q.writePtr - q.readPtr) ∧
    (q.writePtr < q.readPtr → availableToRead q = q.writePtr + U64 - q.readPtr) ∧
    (availableToRead q ≤ q.size →
      availableToWrite q = q.size - availableToRead q) ∧
    (availableToRead q = q.size →
      availableToWrite q = 0 ∧
      ∀ data count, 0 < q.recW * count % U64 →
        write q data count = some (false, q)) := by
  refine ⟨?_, ?_, ?_, ?_⟩
  · intro h
    exact sub64_of_le _ _ h (by rw [U64_eq] at *; omega)
  · intro h
    exact sub64_wrap _ _ h hr
  · intro h
    exact availableToWrite_eq q hC h
  · intro h
    have h0 : availableToWrite q = 0 := by
      rw [availableToWrite_eq q hC (le_of_eq h), h]
      omega
    refine ⟨h0, fun data count hcnt => write_refuse q data count ?_⟩
    rw [h0]
    exact hcnt

/-- Witness for C7 at a concrete full queue: capacity 4, `R = 2`, `W = 6`. -/
theorem c7_available_capacities_witness :
    ((MQ.mk 4 1 2 6 [1, 2, 3, 4]).writePtr < U64 ∧
      (MQ.mk 4 1 2 6 [1, 2, 3, 4]).readPtr < U64 ∧
      (MQ.mk 4 1 2 6 [1, 2, 3, 4]).size < U64) ∧
    ((2 ≤ 6 → availableToRead (MQ.mk 4 1 2 6 [1, 2, 3, 4]) = 6 - 2) ∧
      (6 < 2 → availableToRead (MQ.mk 4 1 2 6 [1, 2, 3, 4]) = 6 + U64 - 2) ∧
      (availableToRead (MQ.mk 4 1 2 6 [1, 2, 3, 4]) ≤ 4 →
        availableToWrite (MQ.mk 4 1 2 6 [1, 2, 3, 4]) =
          4 - availableToRead (MQ.mk 4 1 2 6 [1, 2, 3, 4])) ∧
      (availableToRead (MQ.mk 4 1 2 6 [1, 2, 3, 4]) = 4 →
        availableToWrite (MQ.mk 4 1 2 6 [1, 2, 3, 4]) = 0 ∧
        ∀ data count, 0 < 1 * count % U64 →
          write (MQ.mk 4 1 2 6 [1, 2, 3, 4]) data count =
            some (false, MQ.mk 4 1 2 6 [1, 2, 3, 4]))) :=
  ⟨⟨by decide, by decide, by decide⟩,
    c7_available_capacities (MQ.mk 4 1 2 6 [1, 2, 3, 4])
      (by decide) (by decide) (by decide)⟩

/-- **C10.** No operation guards against degenerate descriptor geometry:
a descriptor reporting quantum 0 is rejected by the constructor only through
the quantum-vs-record-width check, yet `getQuantumCount()` still divides the
capacity by the quantum unconditionally (division by zero, modelled `none`);
and the constructor never inspects the capacity, so a size-0 descriptor
passes the precondition check and yields an endpoint whose
`beginWrite`/`beginRead` reduce the position modulo 0 (modelled `none`). -/
theorem c10_no_degenerate_geometry_guard :
    (∀ (d : MQDescriptor) (recW : Nat), d.handleValid = true →
        kMinGrantorCount ≤ d.grantors.length → d.quantum = 0 → recW ≠ 0 →
        descMalformed d recW = true ∧ getQuantumCount d = none) ∧
    (∀ (d : MQDescriptor) (recW : Nat), d.handleValid = true →
        kMinGrantorCount ≤ d.grantors.length → d.quantum = recW →
        descMalformed d recW = false) ∧
    (∀ (q : MQ) (n : Nat), q.size = 0 →
        beginWrite q n = none ∧ beginRead q n = none) := by
  refine ⟨?_, ?_, ?_⟩
  · intro d recW h1 h2 h3 h4
    constructor
    · simp [descMalformed, h1, h3, kMinGrantorCount]
      omega
    · rw [getQuantumCount, if_pos h3]
  · intro d recW h1 h2 h3
    have h4 : ¬ d.grantors.length < kMinGrantorCount := by omega
    simp [descMalformed, h1, h3, h4]
  · intro q n h
    constructor
    · rw [beginWrite, if_pos h]
    · rw [beginRead, if_pos h]

/-- Witness for C10: a quantum-0 descriptor and a size-0 descriptor, both
with a valid handle and three grantors, and a zero-capacity endpoint. -/
theorem c10_no_degenerate_geometry_guard_witness :
    ((MQDescriptor.mk 64 0 [⟨0, 0, 8⟩, ⟨0, 8, 8⟩, ⟨0, 16, 64⟩] true [3]).handleValid = true ∧
      kMinGrantorCount ≤
        (MQDescriptor.mk 64 0 [⟨0, 0, 8⟩, ⟨0, 8, 8⟩, ⟨0, 16, 64⟩] true [3]).grantors.length ∧
      (4 : Nat) ≠ 0 ∧
      (MQDescriptor.mk 0 4 [⟨0, 0, 8⟩, ⟨0, 8, 8⟩, ⟨0, 16, 0⟩] true [3]).quantum = 4 ∧
      (MQ.mk 0 4 0 0 []).size = 0) ∧
    descMalformed (MQDescriptor.mk 64 0 [⟨0, 0, 8⟩, ⟨0, 8, 8⟩, ⟨0, 16, 64⟩] true [3]) 4 = true ∧
    getQuantumCount (MQDescriptor.mk 64 0 [⟨0, 0, 8⟩, ⟨0, 8, 8⟩, ⟨0, 16, 64⟩] true [3]) = none ∧
    descMalformed (MQDescriptor.mk 0 4 [⟨0, 0, 8⟩, ⟨0, 8, 8⟩, ⟨0, 16, 0⟩] true [3]) 4 = false ∧
    beginWrite (MQ.mk 0 4 0 0 []) 8 = none ∧
    beginRead (MQ.mk 0 4 0 0 []) 8 = none :=
  ⟨⟨by decide, by decide, by decide, by decide, by decide⟩,
    (c10_no_degenerate_geometry_guard.1
      (MQDescriptor.mk 64 0 [⟨0, 0, 8⟩, ⟨0, 8, 8⟩, ⟨0, 16, 64⟩] true [3]) 4
      rfl (by decide) rfl (by decide)).1,
    (c10_no_degenerate_geometry_guard.1
      (MQDescriptor.mk 64 0 [⟨0, 0, 8⟩, ⟨0, 8, 8⟩, ⟨0, 16, 64⟩] true [3]) 4
      rfl (by decide) rfl (by decide)).2,
    c10_no_degenerate_geometry_guard.2.1
      (MQDescriptor.mk 0 4 [⟨0, 0, 8⟩, ⟨0, 8, 8⟩, ⟨0, 16, 0⟩] true [3]) 4
      rfl (by decide) rfl,
    (c10_no_degenerate_geometry_guard.2.2 (MQ.mk 0 4 0 0 []) 8 rfl).1,
    (c10_no_degenerate_geometry_guard.2.2 (MQ.mk 0 4 0 0 []) 8 rfl).2⟩

/-- **C5** (evaluating the code at the spec's scenario S4). The constructor,
given a malformed descriptor — here quantum 8 against record width 4, with a
valid handle and three grantors — returns before mapping anything, leaving the
three pointer members holding the indeterminate values the uninitialised
storage happened to contain; for garbage values that are non-null, `isValid()`
then returns `true`, contradicting the claimed permanently-invalid state. -/
theorem c5_uninitialised_members_on_early_return :
    descMalformed (MQDescriptor.mk 64 8 [⟨0, 0, 8⟩, ⟨0, 8, 8⟩, ⟨0, 16, 64⟩] true [3]) 4 = true ∧
    construct (MQDescriptor.mk 64 8 [⟨0, 0, 8⟩, ⟨0, 8, 8⟩, ⟨0, 16, 64⟩] true [3]) 4
        (Members.mk (some 5) (some 6) (some [1, 2])) false false none =
      some (Members.mk (some 5) (some 6) (some [1, 2])) ∧
    isValid (Members.mk (some 5) (some 6) (some [1, 2])) = true := by
  decide

/-- **C9** (evaluating the code on a well-formed descriptor). Construction
does unconditionally zero both counters after mapping them and before the
endpoint becomes valid — but the zeroing stores are issued with
`std::memory_order_acquire` (source lines 97–98), not the release order the
claim states; `acquire` is not a permitted order for an atomic store. -/
theorem c9_ctor_zeroes_counters_with_acquire_order :
    construct (MQDescriptor.mk 64 4 [⟨0, 0, 8⟩, ⟨0, 8, 8⟩, ⟨0, 16, 64⟩] true [3]) 4
        (Members.mk none none none) true true (some (List.replicate 64 9)) =
      some (Members.mk (some 0) (some 0) (some (List.replicate 64 9))) ∧
    isValid (Members.mk (some 0) (some 0) (some (List.replicate 64 9))) = true ∧
    ctorZeroStoreOrder = MemOrder.acquire ∧
    ctorZeroStoreOrder ≠ MemOrder.release := by
  decide

/-- **C1.** `write(data, count)` returns `false` and changes nothing when
`availableToWrite() < count·Q` at its check, and otherwise copies `count·Q`
bytes from `data` into the ring starting at byte offset `W % C`, advances `W`
by exactly `count·Q` (in the 64-bit counter), and returns `true`; so `write`
returns `true` iff `availableToWrite ≥ count·Q` at the check, and `read`
behaves symmetrically against `availableToRead` and `R`. -/
theorem c1_write_read_flow_control (q : MQ) (data : List Nat) (count : Nat)
    (hC : 0 < q.size) (hCU : q.size < U64)
    (_hw : q.writePtr < U64) (_hr : q.readPtr < U64)
    (hring : q.ring.length = q.size)
    (hocc : availableToRead q ≤ q.size)
    (hn : q.recW * count < U64)
    (hd : q.recW * count ≤ data.length) :
    (availableToWrite q < q.recW * count → write q data count = some (false, q)) ∧
    (q.recW * count ≤ availableToWrite q →
      ∃ q1, write q data count = some (true, q1) ∧
        q1.writePtr = (q.writePtr + q.recW * count) % U64 ∧
        q1.readPtr = q.readPtr ∧ q1.size = q.size ∧
        q1.ring.length = q.size ∧
        ∀ i, i < q.recW * count →
          q1.ring.getD ((q.writePtr % q.size + i) % q.size) 0 = data.getD i 0) ∧
    (availableToRead q < q.recW * count → read q count = some (false, [], q)) ∧
    (q.recW * count ≤ availableToRead q →
      ∃ d q1, read q count = some (true, d, q1) ∧
        q1.readPtr = (q.readPtr + q.recW * count) % U64 ∧
        q1.writePtr = q.writePtr ∧ q1.ring = q.ring ∧ q1.size = q.size ∧
        d.length = q.recW * count ∧
        ∀ i, i < q.recW * count →
          d.getD i 0 = q.ring.getD ((q.readPtr % q.size + i) % q.size) 0) := by
  have hmod : q.recW * count % U64 = q.recW * count := Nat.mod_eq_of_lt hn
  refine ⟨?_, ?_, ?_, ?_⟩
  · intro h
    exact write_refuse q data count (by rw [hmod]; exact h)
  · intro h
    obtain ⟨ring2, hwr, hlen, hpt⟩ := write_succ q data count hC hCU hring hocc hd h
    exact ⟨_, hwr, rfl, rfl, rfl, hlen, hpt⟩
  · intro h
    exact read_refuse q count (by rw [hmod]; exact h)
  · intro h
    obtain ⟨d, hrd, hlen, hpt⟩ := read_succ q count hC hCU hring hocc h
    exact ⟨d, _, hrd, rfl, rfl, rfl, rfl, hlen, hpt⟩

/-- Witness for C1 at a concrete state: capacity 4, record width 2, one
record written and readable. -/
theorem c1_write_read_flow_control_witness :
    (0 < (MQ.mk 4 2 0 2 [8, 9, 0, 0]).size ∧
      (MQ.mk 4 2 0 2 [8, 9, 0, 0]).size < U64 ∧
      (MQ.mk 4 2 0 2 [8, 9, 0, 0]).writePtr < U64 ∧
      (MQ.mk 4 2 0 2 [8, 9, 0, 0]).readPtr < U64 ∧
      (MQ.mk 4 2 0 2 [8, 9, 0, 0]).ring.length = 4 ∧
      availableToRead (MQ.mk 4 2 0 2 [8, 9, 0, 0]) ≤ 4 ∧
      2 * 1 < U64 ∧ 2 * 1 ≤ [5, 6].length) ∧
    ((availableToWrite (MQ.mk 4 2 0 2 [8, 9, 0, 0]) < 2 * 1 →
        write (MQ.mk 4 2 0 2 [8, 9, 0, 0]) [5, 6] 1 =
          some (false, MQ.mk 4 2 0 2 [8, 9, 0, 0])) ∧
      (2 * 1 ≤ availableToWrite (MQ.mk 4 2 0 2 [8, 9, 0, 0]) →
        ∃ q1, write (MQ.mk 4 2 0 2 [8, 9, 0, 0]) [5, 6] 1 = some (true, q1) ∧
          q1.writePtr = (2 + 2 * 1) % U64 ∧
          q1.readPtr = 0 ∧ q1.size = 4 ∧ q1.ring.length = 4 ∧
          ∀ i, i < 2 * 1 →
            q1.ring.getD ((2 % 4 + i) % 4) 0 = [5, 6].getD i 0) ∧
      (availableToRead (MQ.mk 4 2 0 2 [8, 9, 0, 0]) < 2 * 1 →
        read (MQ.mk 4 2 0 2 [8, 9, 0, 0]) 1 =
          some (false, [], MQ.mk 4 2 0 2 [8, 9, 0, 0])) ∧
      (2 * 1 ≤ availableToRead (MQ.mk 4 2 0 2 [8, 9, 0, 0]) →
        ∃ d q1, read (MQ.mk 4 2 0 2 [8, 9, 0, 0]) 1 = some (true, d, q1) ∧
          q1.readPtr = (0 + 2 * 1) % U64 ∧
          q1.writePtr = 2 ∧ q1.ring = [8, 9, 0, 0] ∧ q1.size = 4 ∧
          d.length = 2 * 1 ∧
          ∀ i, i < 2 * 1 →
            d.getD i 0 = [8, 9, 0, 0].getD ((0 % 4 + i) % 4) 0)) :=
  ⟨⟨by decide, by decide, by decide, by decide, by decide, by decide, by decide,
      by decide⟩,
    c1_write_read_flow_control (MQ.mk 4 2 0 2 [8, 9, 0, 0]) [5, 6] 1
      (by decide) (by decide) (by decide) (by decide) (by decide) (by decide)
      (by decide) (by decide)⟩

/-- **C3 counterexample.** On a queue that already holds unread bytes the
claim fails as stated: with capacity 4, `R = 0`, `W = 1` and ring `[9,0,0,0]`,
the single-record sequence `[5]` fits the available capacity (3 bytes) and
`write` succeeds, but the following `read` of one record delivers the older
byte `[9]`, not `[5]` — FIFO order delivers pre-existing data first. -/
theorem c3_round_trip_counterexample :
    availableToWrite (MQ.mk 4 1 0 1 [9, 0, 0, 0]) = 3 ∧
    write (MQ.mk 4 1 0 1 [9, 0, 0, 0]) [5] 1 =
      some (true, MQ.mk 4 1 0 2 [9, 5, 0, 0]) ∧
    read (MQ.mk 4 1 0 2 [9, 5, 0, 0]) 1 =
      some (true, [9], MQ.mk 4 1 1 2 [9, 5, 0, 0]) ∧
    [9] ≠ [5] := by
  decide

/-- **C3 (amended).** Starting from an empty queue (`R = W`, any common
value, so all wraparound positions are covered), writing a byte sequence
`data` of `count` records that fits the capacity and then reading `count`
records succeeds on both sides and yields exactly `data`, leaving the queue
empty again. -/
theorem c3_round_trip_empty_queue (q : MQ) (data : List Nat) (count : Nat)
    (hC : 0 < q.size) (hCU : q.size < U64) (hw : q.writePtr < U64)
    (hring : q.ring.length = q.size)
    (hempty : q.readPtr = q.writePtr)
    (hn : q.recW * count ≤ q.size)
    (hd : data.length = q.recW * count) :
    ∃ q1 q2, write q data count = some (true, q1) ∧
      read q1 count = some (true, data, q2) ∧
      q2.writePtr = q1.writePtr ∧ q2.readPtr = q2.writePtr ∧
      q2.ring = q1.ring := by
  have hnU : q.recW * count < U64 := by rw [U64_eq] at *; omega
  have hatr : availableToRead q = 0 := by
    rw [availableToRead, hempty, sub64_self]
  have hatw : availableToWrite q = q.size := by
    rw [availableToWrite, hatr,
      sub64_of_le _ _ (Nat.zero_le _) (by rw [U64_eq] at *; omega)]
    omega
  obtain ⟨ring2, hwr, hlen, hpt⟩ :=
    write_succ q data count hC hCU hring (by omega) (by omega)
      (by rw [hatw]; exact hn)
  set q1 : MQ :=
    { q with
        ring := ring2
        writePtr := (q.writePtr + q.recW * count) % U64 } with hq1
  have hq1read : q1.readPtr = q.writePtr := hempty
  have hatr1 : availableToRead q1 = q.recW * count := by
    have h1 : availableToRead q1 =
        sub64 ((q.writePtr + q.recW * count) % U64) q.readPtr := rfl
    rw [h1, hempty]
    exact sub64_add_mod _ _ hw hnU
  obtain ⟨d, hrd, hdlen, hdpt⟩ :=
    read_succ q1 count hC hCU hlen (by rw [hatr1]; exact hn) (by rw [hatr1])
  have hdd : d = data := by
    apply list_eq_of_getD d data (by rw [hdlen, hd])
    intro i hi
    have hi2 : i < q.recW * count := by rw [hdlen] at hi; exact hi
    rw [hdpt i hi2]
    have e : (q1.readPtr % q1.size + i) % q1.size =
        (q.writePtr % q.size + i) % q.size := by
      rw [hq1read]
    rw [e]
    exact hpt i hi2
  rw [hdd] at hrd
  refine ⟨q1, _, hwr, hrd, rfl, ?_, rfl⟩
  show (q1.readPtr + q.recW * count) % U64 = q1.writePtr
  rw [hq1read]

/-- Witness for the amended C3 at a wrapping position: capacity 4, counters
at 6 (ring offset 2), three one-byte records crossing the boundary. -/
theorem c3_round_trip_empty_queue_witness :
    (0 < (MQ.mk 4 1 6 6 [0, 0, 0, 0]).size ∧
      (MQ.mk 4 1 6 6 [0, 0, 0, 0]).size < U64 ∧
      (MQ.mk 4 1 6 6 [0, 0, 0, 0]).writePtr < U64 ∧
      (MQ.mk 4 1 6 6 [0, 0, 0, 0]).ring.length = 4 ∧
      (MQ.mk 4 1 6 6 [0, 0, 0, 0]).readPtr = 6 ∧
      1 * 3 ≤ 4 ∧ [1, 2, 3].length = 1 * 3) ∧
    (∃ q1 q2, write (MQ.mk 4 1 6 6 [0, 0, 0, 0]) [1, 2, 3] 3 = some (true, q1) ∧
      read q1 3 = some (true, [1, 2, 3], q2) ∧
      q2.writePtr = q1.writePtr ∧ q2.readPtr = q2.writePtr ∧
      q2.ring = q1.ring) :=
  ⟨⟨by decide, by decide, by decide, by decide, by decide, by decide, by decide⟩,
    c3_round_trip_empty_queue (MQ.mk 4 1 6 6 [0, 0, 0, 0]) [1, 2, 3] 3
      (by decide) (by decide) (by decide) (by decide) (by decide) (by decide)
      (by decide)⟩

/-- **C4 counterexample.** The 64-bit counters are stored modulo `2^64`, so
"never decreases" fails exactly at the wrap: from the occupancy-invariant
state `W = R = 2^64 - 1` (occupancy 0 ≤ capacity 4), a successful one-byte
write stores `W = 0`, which is smaller than the previous value. -/
theorem c4_monotonicity_counterexample :
    availableToRead (MQ.mk 4 1 (U64 - 1) (U64 - 1) [0, 0, 0, 0]) = 0 ∧
    write (MQ.mk 4 1 (U64 - 1) (U64 - 1) [0, 0, 0, 0]) [7] 1 =
      some (true, MQ.mk 4 1 (U64 - 1) 0 [0, 0, 0, 7]) ∧
    (MQ.mk 4 1 (U64 - 1) 0 [0, 0, 0, 7]).writePtr <
      (MQ.mk 4 1 (U64 - 1) (U64 - 1) [0, 0, 0, 0]).writePtr := by
  decide

/-- **C4 (amended).** From any state with occupancy `0 ≤ W - R ≤ C` (unsigned
64-bit subtraction), every `write` and `read` outcome — refusal or success —
preserves the occupancy bound; the peer counter is untouched, and the own
counter does not decrease provided its 64-bit increment does not overflow
(the store wraps modulo `2^64` at overflow, as the counterexample shows). -/
theorem c4_occupancy_and_monotonicity (q : MQ) (data : List Nat) (count : Nat)
    (hC : 0 < q.size) (hCU : q.size < U64)
    (hw : q.writePtr < U64) (hr : q.readPtr < U64)
    (hring : q.ring.length = q.size)
    (hocc : availableToRead q ≤ q.size)
    (hn : q.recW * count < U64)
    (hd : q.recW * count ≤ data.length) :
    (∀ b q1, write q data count = some (b, q1) →
        availableToRead q1 ≤ q1.size ∧ q1.size = q.size ∧
        q1.readPtr = q.readPtr ∧
        (q.writePtr + q.recW * count < U64 → q.writePtr ≤ q1.writePtr)) ∧
    (∀ b d q1, read q count = some (b, d, q1) →
        availableToRead q1 ≤ q1.size ∧ q1.size = q.size ∧
        q1.writePtr = q.writePtr ∧
        (q.readPtr + q.recW * count < U64 → q.readPtr ≤ q1.readPtr)) := by
  have hmod : q.recW * count % U64 = q.recW * count := Nat.mod_eq_of_lt hn
  have hatw : availableToWrite q = q.size - availableToRead q :=
    availableToWrite_eq q hCU hocc
  constructor
  · by_cases hchk : availableToWrite q < q.recW * count % U64
    · intro b q1 hb
      rw [write_refuse q data count hchk] at hb
      simp only [Option.some.injEq, Prod.mk.injEq] at hb
      obtain ⟨hb1, hb2⟩ := hb
      subst hb2
      exact ⟨hocc, rfl, rfl, fun _ => le_refl _⟩
    · intro b q1 hb
      have hge : q.recW * count ≤ availableToWrite q := by
        rw [hmod] at hchk; omega
      obtain ⟨ring2, hwr, hlen, hpt⟩ :=
        write_succ q data count hC hCU hring hocc hd hge
      rw [hwr] at hb
      simp only [Option.some.injEq, Prod.mk.injEq] at hb
      obtain ⟨hb1, hb2⟩ := hb
      subst hb2
      refine ⟨?_, rfl, rfl, ?_⟩
      · have hA : sub64 q.writePtr q.readPtr = availableToRead q := rfl
        have hlt : sub64 q.writePtr q.readPtr + q.recW * count < U64 := by
          rw [hA, U64_eq] at *
          omega
        show sub64 ((q.writePtr + q.recW * count) % U64) q.readPtr ≤ q.size
        rw [sub64_add_left _ _ _ hw hr hlt, hA]
        omega
      · intro hov
        show q.writePtr ≤ (q.writePtr + q.recW * count) % U64
        rw [Nat.mod_eq_of_lt hov]
        omega
  · by_cases hchk : availableToRead q < q.recW * count % U64
    · intro b d q1 hb
      rw [read_refuse q count hchk] at hb
      simp only [Option.some.injEq, Prod.mk.injEq] at hb
      obtain ⟨hb1, hb2, hb3⟩ := hb
      subst hb3
      exact ⟨hocc, rfl, rfl, fun _ => le_refl _⟩
    · intro b d q1 hb
      have hge : q.recW * count ≤ availableToRead q := by
        rw [hmod] at hchk; omega
      obtain ⟨d2, hrd, hdlen, hdpt⟩ := read_succ q count hC hCU hring hocc hge
      rw [hrd] at hb
      simp only [Option.some.injEq, Prod.mk.injEq] at hb
      obtain ⟨hb1, hb2, hb3⟩ := hb
      subst hb3
      refine ⟨?_, rfl, rfl, ?_⟩
      · have hA : sub64 q.writePtr q.readPtr = availableToRead q := rfl
        show sub64 q.writePtr ((q.readPtr + q.recW * count) % U64) ≤ q.size
        rw [sub64_sub_right _ _ _ hw hr hge, hA]
        omega
      · intro hov
        show q.readPtr ≤ (q.readPtr + q.recW * count) % U64
        rw [Nat.mod_eq_of_lt hov]
        omega

/-- Witness for the amended C4 at a concrete state. -/
theorem c4_occupancy_and_monotonicity_witness :
    (0 < (MQ.mk 4 1 1 3 [9, 8, 7, 0]).size ∧
      (MQ.mk 4 1 1 3 [9, 8, 7, 0]).size < U64 ∧
      (MQ.mk 4 1 1 3 [9, 8, 7, 0]).writePtr < U64 ∧
      (MQ.mk 4 1 1 3 [9, 8, 7, 0]).readPtr < U64 ∧
      (MQ.mk 4 1 1 3 [9, 8, 7, 0]).ring.length = 4 ∧
      availableToRead (MQ.mk 4 1 1 3 [9, 8, 7, 0]) ≤ 4 ∧
      1 * 1 < U64 ∧ 1 * 1 ≤ [5].length) ∧
    ((∀ b q1, write (MQ.mk 4 1 1 3 [9, 8, 7, 0]) [5] 1 = some (b, q1) →
        availableToRead q1 ≤ q1.size ∧ q1.size = 4 ∧
        q1.readPtr = 1 ∧ (3 + 1 * 1 < U64 → 3 ≤ q1.writePtr)) ∧
      (∀ b d q1, read (MQ.mk 4 1 1 3 [9, 8, 7, 0]) 1 = some (b, d, q1) →
        availableToRead q1 ≤ q1.size ∧ q1.size = 4 ∧
        q1.writePtr = 3 ∧ (1 + 1 * 1 < U64 → 1 ≤ q1.readPtr))) :=
  ⟨⟨by decide, by decide, by decide, by decide, by decide, by decide,
      by decide, by decide⟩,
    c4_occupancy_and_monotonicity (MQ.mk 4 1 1 3 [9, 8, 7, 0]) [5] 1
      (by decide) (by decide) (by decide) (by decide) (by decide) (by decide)
      (by decide) (by decide)⟩

/-- **C8.** For a grantor with offset `O` and extent `E`, `mapGrantorDescr`
computes the page-aligned offset `O' = (O / PAGE_SIZE) * PAGE_SIZE` (a
multiple of the page size, at most `O`, within one page of it) and the
mapping length `L = (O - O') + E`; in the regime where the computed values
are representable in the source's `int` locals (`O < 2^31` and `L < 2^31`,
the hypotheses `hoffFit`/`hlenFit`) the narrowing is value-preserving, and
the function requests the shared read-write mapping `mm L fd O'` on the
grantor's fd, returning `base + (O - O')` on success and the null sentinel on
failure; `unmapGrantorDescr` recovers the page-aligned base by subtracting
`O - O'` from the given address and releases exactly the region `(base, L)`. -/
theorem c8_region_mapper (pageSize : Nat) (mm : Int → Int → Int → Option Int)
    (d : MQDescriptor) (i : Nat) (g : Grantor) (mapOffset mapLength : Nat)
    (fd : Int) (hp : 0 < pageSize)
    (hg : d.grantors.getD i ⟨0, 0, 0⟩ = g)
    (hmo : mapOffset = g.offset / pageSize * pageSize)
    (hml : mapLength = g.offset - mapOffset + g.extent)
    (hfd : fd = d.handleFds.getD g.fdIndex 0)
    (hoffFit : g.offset < 2 ^ 31)
    (hlenFit : mapLength < 2 ^ 31) :
    mapOffset % pageSize = 0 ∧ mapOffset ≤ g.offset ∧
    g.offset < mapOffset + pageSize ∧
    intCast32 mapOffset = (mapOffset : Int) ∧
    intCast32 mapLength = (mapLength : Int) ∧
    (mm (mapLength : Int) fd (mapOffset : Int) = none →
        mapGrantorDescr pageSize mm d i = none) ∧
    (∀ base, mm (mapLength : Int) fd (mapOffset : Int) = some base →
        mapGrantorDescr pageSize mm d i =
          some (base + ((g.offset : Int) - (mapOffset : Int))) ∧
        (0 < base →
          unmapGrantorDescr pageSize d
              (base + ((g.offset : Int) - (mapOffset : Int))) i =
            some (base, (mapLength : Int)))) := by
  subst hmo hml hfd
  have h1 := Nat.div_add_mod g.offset pageSize
  have h2 := Nat.mod_lt g.offset hp
  rw [Nat.mul_comm] at h1
  have hoffLe : g.offset / pageSize * pageSize ≤ g.offset := Nat.div_mul_le_self _ _
  have hcast_off : intCast32 (g.offset / pageSize * pageSize) =
      ((g.offset / pageSize * pageSize : Nat) : Int) :=
    intCast32_of_lt _ (by omega)
  have hcast_len :
      intCast32 (g.offset - g.offset / pageSize * pageSize + g.extent) =
        ((g.offset - g.offset / pageSize * pageSize + g.extent : Nat) : Int) :=
    intCast32_of_lt _ hlenFit
  refine ⟨Nat.mul_mod_left _ _, hoffLe, by linarith, hcast_off, hcast_len, ?_, ?_⟩
  · intro hnone
    simp only [mapGrantorDescr]
    rw [hg, hcast_off, hcast_len, hnone]
  · intro base hsome
    constructor
    · simp only [mapGrantorDescr]
      rw [hg, hcast_off, hcast_len, hsome]
    · intro hbase
      simp only [unmapGrantorDescr]
      rw [hg, hcast_off, hcast_len]
      have heq : base +
            ((g.offset : Int) - ((g.offset / pageSize * pageSize : Nat) : Int)) -
          ((g.offset : Int) - ((g.offset / pageSize * pageSize : Nat) : Int)) =
          base := by ring
      rw [heq, if_neg (by omega)]

/-- Witness for C8: page size 4096, grantor at offset 5000 with extent 8
(alignment slack 904, mapping length 912, both int-representable), an `mmap`
environment that returns base 8192. -/
theorem c8_region_mapper_witness :
    (0 < 4096 ∧
      (MQDescriptor.mk 64 4 [⟨0, 5000, 8⟩, ⟨0, 5008, 8⟩, ⟨0, 5016, 64⟩]
          true [3]).grantors.getD 0 ⟨0, 0, 0⟩ = ⟨0, 5000, 8⟩ ∧
      (4096 : Nat) = 5000 / 4096 * 4096 ∧ (912 : Nat) = 5000 - 4096 + 8 ∧
      (3 : Int) = [(3 : Int)].getD 0 0 ∧
      (5000 : Nat) < 2 ^ 31 ∧ (912 : Nat) < 2 ^ 31) ∧
    ((4096 : Nat) % 4096 = 0 ∧ (4096 : Nat) ≤ 5000 ∧ (5000 : Nat) < 4096 + 4096 ∧
      intCast32 4096 = (4096 : Int) ∧ intCast32 912 = (912 : Int) ∧
      ((fun (_ : Int) (_ : Int) (_ : Int) => some (8192 : Int)) 912 3 4096 = none →
        mapGrantorDescr 4096 (fun _ _ _ => some 8192)
          (MQDescriptor.mk 64 4 [⟨0, 5000, 8⟩, ⟨0, 5008, 8⟩, ⟨0, 5016, 64⟩]
            true [3]) 0 = none) ∧
      (∀ base,
        (fun (_ : Int) (_ : Int) (_ : Int) => some (8192 : Int)) 912 3 4096 =
            some base →
        mapGrantorDescr 4096 (fun _ _ _ => some 8192)
            (MQDescriptor.mk 64 4 [⟨0, 5000, 8⟩, ⟨0, 5008, 8⟩, ⟨0, 5016, 64⟩]
              true [3]) 0 = some (base + ((5000 : Int) - (4096 : Int))) ∧
          (0 < base →
            unmapGrantorDescr 4096
                (MQDescriptor.mk 64 4 [⟨0, 5000, 8⟩, ⟨0, 5008, 8⟩, ⟨0, 5016, 64⟩]
                  true [3]) (base + ((5000 : Int) - (4096 : Int))) 0 =
              some (base, (912 : Int))))) :=
  ⟨⟨by decide, by decide, by decide, by decide, by decide, by decide, by decide⟩,
    c8_region_mapper 4096 (fun _ _ _ => some 8192)
      (MQDescriptor.mk 64 4 [⟨0, 5000, 8⟩, ⟨0, 5008, 8⟩, ⟨0, 5016, 64⟩] true [3])
      0 ⟨0, 5000, 8⟩ 4096 912 3
      (by decide) (by decide) (by decide) (by decide) (by decide) (by decide)
      (by decide)⟩

end MessageQueue
